import Mathlib

/-!
Verification of the MapReduce coordinator in `src/6.5840/src/mr/coordinator.go`.

The coordinator is a lock-protected state machine.  Since every RPC handler
holds the single mutex for its whole body, calls are serialized and the
component is faithfully modelled as a sequential state-transition function:
`GetTask` maps a coordinator state, the caller's request (`TaskArgs`), the
caller-supplied reply value and the current time to an optional pair of
new state and the reply value the caller observes afterwards.  `none`
models a Go runtime panic (index out of range).

Two deliberate points of faithfulness to the Go source:
  * `mapWorker := self.mapTasks[MapWorkerId]` copies the struct, so the
    assignment `mapWorker.startAt = now` mutates a copy and the
    authoritative record keeps its old timestamp.  Hence the scan in our
    model returns the found record but the state is left unchanged.
  * `reply = &newTask` rebinds the local pointer parameter, so on the
    Map-assignment path the caller's reply value is left untouched; on the
    Reduce-assignment path fields are written through the original
    pointer, which the caller does observe.

Times are modelled as `Int` (seconds); the Go zero `time.Time` is `0`.
-/

/-- Record for one Map task, mirroring `MapTasks` in coordinator.go. -/
structure MapTasks where
  id : Nat
  file : String
  startAt : Int
  isDone : Bool
deriving Repr, DecidableEq

/-- Record for one Reduce task, mirroring `ReduceTasks` in coordinator.go. -/
structure ReduceTasks where
  id : Nat
  files : List String
  startAt : Int
  isDone : Bool
deriving Repr, DecidableEq

/-- The coordinator state, mirroring `Coordinator` in coordinator.go
(the mutex is modelled by serializing calls). -/
structure Coordinator where
  reduceTasks : List ReduceTasks
  mapTasks : List MapTasks
  mapLeft : Int
  reduceLeft : Int
deriving Repr, DecidableEq

/-- Modelled from the spec: the worker/task status enum used by
`TaskArgs.WorkerStatus` and `TaskReply.WorkerStatus`.  Its defining file
(rpc.go) is not part of src/; coordinator.go references the constants
`Map`, `Reduce`, `Sleep` and `Exit`, and the spec (section 6) adds a
`NONE` kind for the first contact of a new executor, rendered here as
`NoneS`.  `Sleep` is the spec's `WAIT`. -/
inductive WorkerStatus where
  | NoneS
  | Map
  | Reduce
  | Sleep
  | Exit
deriving Repr, DecidableEq

/-- Modelled from the spec: the request payload (rpc.go is not in src/).
Spec section 6: the kind of task previously held, its identity, and, for a
Map report, a collection indexed by reduce bucket of intermediate
references (empty entries allowed and ignored).  coordinator.go reads
exactly the fields `WorkerStatus`, `WorkerId` and `CompletedTasks`. -/
structure TaskArgs where
  WorkerStatus : WorkerStatus
  WorkerId : Nat
  CompletedTasks : List String
deriving Repr, DecidableEq

/-- Modelled from the spec: the reply payload (rpc.go is not in src/).
coordinator.go writes exactly the fields `WorkerId`, `WorkerStatus`,
`ImpendingTasks` and `NReduce`. -/
structure TaskReply where
  WorkerId : Nat
  WorkerStatus : WorkerStatus
  ImpendingTasks : List String
  NReduce : Nat
deriving Repr, DecidableEq

/-- The loop `for id, completedTasks := range args.CompletedTasks` in the
Map branch of `GetTask`: each non-empty entry at bucket `id` is appended
to `reduceTasks[id].files`; `i` is the current loop index.  Indexing a
non-empty entry out of range of `reduceTasks` panics in Go (`none`). -/
def appendFiles (rts : List ReduceTasks) : List String → Nat → Option (List ReduceTasks)
  | [], _ => some rts
  | ct :: rest, i =>
    if 0 < ct.length then
      match rts[i]? with
      | none => none
      | some rt => appendFiles (rts.set i { rt with files := rt.files ++ [ct] }) rest (i + 1)
    else
      appendFiles rts rest (i + 1)

/-- Report ingestion: lines 80–104 of coordinator.go.  The two `if`
statements on `args.WorkerStatus` are mutually exclusive, rendered as a
match.  Indexing with an out-of-range `WorkerId` panics in Go (`none`). -/
def ingest (c : Coordinator) (args : TaskArgs) : Option Coordinator :=
  match args.WorkerStatus with
  | WorkerStatus.Map =>
    match c.mapTasks[args.WorkerId]? with
    | none => none
    | some mt =>
      if mt.isDone then some c
      else
        match appendFiles c.reduceTasks args.CompletedTasks 0 with
        | none => none
        | some rts =>
          some { c with
                 mapTasks := c.mapTasks.set args.WorkerId { mt with isDone := true },
                 reduceTasks := rts,
                 mapLeft := c.mapLeft - 1 }
  | WorkerStatus.Reduce =>
    match c.reduceTasks[args.WorkerId]? with
    | none => none
    | some rt =>
      if rt.isDone then some c
      else
        some { c with
               reduceTasks := c.reduceTasks.set args.WorkerId { rt with isDone := true },
               reduceLeft := c.reduceLeft - 1 }
  | _ => some c

/-- The Map-task scan of lines 118–136: iterate in index order, skip
completed records, return the first record whose `startAt` is strictly
before `timeLeft` (= now − 10s).  The scan reads a copy of each record,
so it never mutates the coordinator. -/
def findStale (timeLeft : Int) : List MapTasks → Option MapTasks
  | [] => none
  | t :: rest =>
    if !t.isDone && decide (t.startAt < timeLeft) then some t
    else findStale timeLeft rest

/-- The Reduce-task scan of lines 142–156, same structure as `findStale`. -/
def findStaleReduce (timeLeft : Int) : List ReduceTasks → Option ReduceTasks
  | [] => none
  | t :: rest =>
    if !t.isDone && decide (t.startAt < timeLeft) then some t
    else findStaleReduce timeLeft rest

/-- Lines 141–164 of `GetTask`: the Reduce branch and the fall-through to
`reply.WorkerStatus = Exit`.  On a Reduce hit the fields of the caller's
reply are written in place (through the original pointer) and
`reduceWorker.startAt = now` mutates only a copy.  On a miss the branch
sets `Sleep` but control falls through to the unconditional `Exit`
assignment at line 162 — there is no early return after `Sleep`. -/
def reduceAndExit (c : Coordinator) (reply : TaskReply) (timeLeft : Int) :
    Coordinator × TaskReply :=
  if 0 < c.reduceLeft then
    match findStaleReduce timeLeft c.reduceTasks with
    | some rw =>
      (c, { reply with ImpendingTasks := rw.files,
                       WorkerId := rw.id,
                       WorkerStatus := WorkerStatus.Reduce })
    | none =>
      let reply := { reply with WorkerStatus := WorkerStatus.Sleep }
      (c, { reply with WorkerStatus := WorkerStatus.Exit })
  else
    (c, { reply with WorkerStatus := WorkerStatus.Exit })

/-- `GetTask` (lines 67–165): ingest the report, then decide the next
assignment.  On the Map branch, a hit builds `newTask` and executes
`reply = &newTask`, which rebinds the local pointer — the caller's reply
is returned unchanged; `mapWorker.startAt = now` only mutates a copy, so
the state is the ingestion result on every path.  On a Map miss the
branch sets `Sleep` and falls through (no early return) into the Reduce
branch / `Exit` assignment. -/
def GetTask (c0 : Coordinator) (args : TaskArgs) (reply : TaskReply) (now : Int) :
    Option (Coordinator × TaskReply) :=
  match ingest c0 args with
  | none => none
  | some c =>
    let timeLeft := now - 10
    if 0 < c.mapLeft then
      match findStale timeLeft c.mapTasks with
      | some _mw => some (c, reply)
      | none =>
        let reply := { reply with WorkerStatus := WorkerStatus.Sleep }
        some (reduceAndExit c reply timeLeft)
    else
      some (reduceAndExit c reply timeLeft)

/-- `Done` (lines 191–198): the job is complete when both remaining
counters are zero. -/
def Done (c : Coordinator) : Bool :=
  c.mapLeft == 0 && c.reduceLeft == 0

/-- The loop `for idx, file := range files` of `MakeCoordinator`
(lines 224–226): one `MapTasks` record per input file, identity equal to
the positional index, `startAt` left at the zero value of `time.Time`
and `isDone` false. -/
def initMapTasks : Nat → List String → List MapTasks
  | _, [] => []
  | idx, f :: rest =>
    { id := idx, file := f, startAt := 0, isDone := false } :: initMapTasks (idx + 1) rest

/-- The loop `for idx := 0; idx < nReduce; idx += 1` of `MakeCoordinator`
(lines 230–232): `nReduce` records with identity equal to the index,
empty file collections, zero timestamps, `isDone` false. -/
def initReduceTasks (nReduce : Nat) : List ReduceTasks :=
  (List.range nReduce).map fun idx =>
    { id := idx, files := [], startAt := 0, isDone := false }

/-- `MakeCoordinator` (lines 205–239): `log.Fatalf` on an empty file list
(modelled as `none`), otherwise the fully initialized coordinator. -/
def MakeCoordinator (files : List String) (nReduce : Nat) : Option Coordinator :=
  if files.length = 0 then none
  else
    some { mapTasks := initMapTasks 0 files,
           reduceTasks := initReduceTasks nReduce,
           mapLeft := (files.length : Int),
           reduceLeft := (nReduce : Int) }

/-- States reachable from `c0` by any finite sequence of successful
`GetTask` calls (a call that panics produces no successor state). -/
inductive Reachable : Coordinator → Coordinator → Prop
  | refl (c : Coordinator) : Reachable c c
  | step {c0 c1 c2 : Coordinator} (args : TaskArgs) (r0 r1 : TaskReply) (now : Int)
      (h : Reachable c0 c1) (hc : GetTask c1 args r0 now = some (c2, r1)) :
      Reachable c0 c2

/-- States reachable in a run of the job built from `files` and `nReduce`. -/
def ReachableFrom (files : List String) (nReduce : Nat) (c : Coordinator) : Prop :=
  ∃ c0, MakeCoordinator files nReduce = some c0 ∧ Reachable c0 c

/-- Number of incomplete Map records. -/
def mapIncomplete (c : Coordinator) : Nat :=
  c.mapTasks.countP fun t => !t.isDone

/-- Number of incomplete Reduce records. -/
def reduceIncomplete (c : Coordinator) : Nat :=
  c.reduceTasks.countP fun t => !t.isDone

/-- The state invariant maintained by the coordinator: the two remaining
counters agree with the record collections, and — because the scans only
ever write timestamps into copies — every authoritative assignment
timestamp still holds the Go zero time. -/
def CoordInv (c : Coordinator) : Prop :=
  c.mapLeft = (mapIncomplete c : Int) ∧
  c.reduceLeft = (reduceIncomplete c : Int) ∧
  (∀ t ∈ c.mapTasks, t.startAt = 0) ∧
  (∀ t ∈ c.reduceTasks, t.startAt = 0)

/-- In-range request per the spec's caller contract: a Map report names an
existing Map record and carries at most one intermediate entry per reduce
bucket; a Reduce report names an existing Reduce record. -/
def ValidArgs (c : Coordinator) (args : TaskArgs) : Prop :=
  match args.WorkerStatus with
  | WorkerStatus.Map =>
    args.WorkerId < c.mapTasks.length ∧
      args.CompletedTasks.length ≤ c.reduceTasks.length
  | WorkerStatus.Reduce => args.WorkerId < c.reduceTasks.length
  | _ => True

/-- A fresh request with no previous task, as sent on first contact. -/
def noneArgs : TaskArgs :=
  { WorkerStatus := WorkerStatus.NoneS, WorkerId := 0, CompletedTasks := [] }

/-- Modelled from the spec: the zero-valued reply that net/rpc hands the
handler before the call (rpc.go and the numeric values of the status
constants are not in src/; we take the spec's `NONE` kind as the initial
status). -/
def replyZero : TaskReply :=
  { WorkerId := 0, WorkerStatus := WorkerStatus.NoneS,
    ImpendingTasks := [], NReduce := 0 }

/-! ### Helper lemmas -/

/-- Setting an index to the value it already holds leaves a list unchanged. -/
theorem set_self_of_getElem? {α : Type} {l : List α} {i : Nat} {a : α}
    (h : l[i]? = some a) : l.set i a = l := by
  apply List.ext_getElem?
  intro n
  rw [List.getElem?_set]
  split
  · next hin =>
    subst hin
    rw [if_pos, h]
    exact (List.getElem?_eq_some.mp h).1
  · rfl

/-- Effect of `List.set` on `countP`, phrased without truncated subtraction. -/
theorem countP_set_balance {α : Type} (p : α → Bool) (l : List α) (i : Nat) (x a : α)
    (h : l[i]? = some a) :
    (l.set i x).countP p + (if p a then 1 else 0) =
      l.countP p + (if p x then 1 else 0) := by
  induction l generalizing i with
  | nil => simp at h
  | cons hd tl ih =>
    cases i with
    | zero =>
      simp only [List.getElem?_cons_zero, Option.some.injEq] at h
      subst h
      simp only [List.set_cons_zero, List.countP_cons]
      omega
    | succ j =>
      simp only [List.getElem?_cons_succ] at h
      simp only [List.set_cons_succ, List.countP_cons]
      have := ih j h
      omega

/-- Skeleton of a Reduce record: every field except the accumulated file
collection. -/
def rSkel (t : ReduceTasks) : Nat × Int × Bool :=
  (t.id, t.startAt, t.isDone)

/-- `appendFiles` only grows `files` fields: the skeletons are untouched. -/
theorem appendFiles_skel {rts rts' : List ReduceTasks} {cts : List String} {i : Nat}
    (h : appendFiles rts cts i = some rts') :
    rts'.map rSkel = rts.map rSkel := by
  induction cts generalizing rts i with
  | nil =>
    simp only [appendFiles, Option.some.injEq] at h
    subst h; rfl
  | cons ct rest ih =>
    simp only [appendFiles] at h
    split at h
    · cases hrt : rts[i]? with
      | none => rw [hrt] at h; exact absurd h (by simp)
      | some rt =>
        rw [hrt] at h
        have hset := ih h
        rw [hset, List.map_set]
        have : rSkel { rt with files := rt.files ++ [ct] } = rSkel rt := rfl
        rw [this]
        exact set_self_of_getElem? (by rw [List.getElem?_map, hrt]; rfl)
    · exact ih h

/-- `appendFiles` preserves the length of the record collection. -/
theorem appendFiles_length {rts rts' : List ReduceTasks} {cts : List String} {i : Nat}
    (h : appendFiles rts cts i = some rts') : rts'.length = rts.length := by
  have := congrArg List.length (appendFiles_skel h)
  simpa using this

/-- `appendFiles` preserves the number of incomplete Reduce records. -/
theorem appendFiles_countP {rts rts' : List ReduceTasks} {cts : List String} {i : Nat}
    (h : appendFiles rts cts i = some rts') :
    rts'.countP (fun t => !t.isDone) = rts.countP (fun t => !t.isDone) := by
  have hs := appendFiles_skel h
  have h1 : rts'.countP (fun t => !t.isDone) =
      (rts'.map rSkel).countP (fun s => !s.2.2) := by
    rw [List.countP_map]; rfl
  have h2 : rts.countP (fun t => !t.isDone) =
      (rts.map rSkel).countP (fun s => !s.2.2) := by
    rw [List.countP_map]; rfl
  rw [h1, h2, hs]

/-- `appendFiles` preserves the all-timestamps-zero property. -/
theorem appendFiles_startAt {rts rts' : List ReduceTasks} {cts : List String} {i : Nat}
    (h : appendFiles rts cts i = some rts') (hz : ∀ t ∈ rts, t.startAt = 0) :
    ∀ t ∈ rts', t.startAt = 0 := by
  intro t ht
  have : rSkel t ∈ rts'.map rSkel := List.mem_map_of_mem rSkel ht
  rw [appendFiles_skel h] at this
  rcases List.mem_map.mp this with ⟨s, hs, hskel⟩
  have : s.startAt = t.startAt := congrArg (fun q => q.2.1) hskel
  rw [← this]
  exact hz s hs

/-- Membership after `List.set` comes from the new element or the old list. -/
theorem mem_of_mem_set {α : Type} {l : List α} {i : Nat} {x t : α}
    (h : t ∈ l.set i x) : t = x ∨ t ∈ l := by
  induction l generalizing i with
  | nil => simp [List.set] at h
  | cons hd tl ih =>
    cases i with
    | zero =>
      rw [List.set_cons_zero] at h
      rcases List.mem_cons.mp h with h | h
      · exact Or.inl h
      · exact Or.inr (List.mem_cons_of_mem _ h)
    | succ j =>
      rw [List.set_cons_succ] at h
      rcases List.mem_cons.mp h with h | h
      · exact Or.inr (h ▸ List.mem_cons_self hd tl)
      · rcases ih h with h | h
        · exact Or.inl h
        · exact Or.inr (List.mem_cons_of_mem _ h)

/-- The state component of `reduceAndExit` is the input state. -/
theorem reduceAndExit_fst (c : Coordinator) (reply : TaskReply) (timeLeft : Int) :
    (reduceAndExit c reply timeLeft).1 = c := by
  unfold reduceAndExit
  split
  · split <;> rfl
  · rfl

/-- A successful `GetTask` call leaves exactly the state produced by
report ingestion: the assignment scans mutate only copies. -/
theorem getTask_state {c c' : Coordinator} {args : TaskArgs} {r0 r' : TaskReply} {now : Int}
    (h : GetTask c args r0 now = some (c', r')) : ingest c args = some c' := by
  unfold GetTask at h
  cases hi : ingest c args with
  | none => rw [hi] at h; exact absurd h (by simp)
  | some c1 =>
    rw [hi] at h
    simp only at h
    split at h
    · split at h
      · simp only [Option.some.injEq, Prod.mk.injEq] at h
        rw [h.1]
      · simp only [Option.some.injEq] at h
        have := congrArg Prod.fst h
        simp only at this
        rw [← this, reduceAndExit_fst]
    · simp only [Option.some.injEq] at h
      have := congrArg Prod.fst h
      simp only at this
      rw [← this, reduceAndExit_fst]

/-- An element fetched by `getElem?` is a member of the list. -/
theorem mem_of_getElem?' {α : Type} {l : List α} {i : Nat} {a : α}
    (h : l[i]? = some a) : a ∈ l :=
  List.mem_iff_getElem?.mpr ⟨i, h⟩


/-- Report ingestion preserves the coordinator invariant. -/
theorem ingest_inv {c c' : Coordinator} {args : TaskArgs}
    (h : ingest c args = some c') (hinv : CoordInv c) : CoordInv c' := by
  obtain ⟨hm, hr, hzm, hzr⟩ := hinv
  unfold ingest at h
  split at h
  · -- Map report
    split at h
    · exact absurd h (by simp)
    · next mt hmt =>
      split at h
      · simp only [Option.some.injEq] at h; rw [← h]; exact ⟨hm, hr, hzm, hzr⟩
      · next hd =>
        split at h
        · exact absurd h (by simp)
        · next rts haf =>
          simp only [Option.some.injEq] at h
          have hbal := countP_set_balance (fun t : MapTasks => !t.isDone) c.mapTasks
            args.WorkerId { mt with isDone := true } mt hmt
          have hpmt : (fun t : MapTasks => !t.isDone) mt = true := by
            simp only [Bool.not_eq_true']
            exact Bool.not_eq_true mt.isDone ▸ hd
          have hpnew : (fun t : MapTasks => !t.isDone) { mt with isDone := true } = false := by
            simp
          rw [hpmt, hpnew] at hbal
          simp at hbal
          refine h ▸ ⟨?_, ?_, ?_, ?_⟩
          · show c.mapLeft - 1 =
              ((c.mapTasks.set args.WorkerId { mt with isDone := true }).countP
                (fun t => !t.isDone) : Int)
            rw [hm]
            unfold mapIncomplete
            omega
          · show c.reduceLeft = (rts.countP (fun t => !t.isDone) : Int)
            rw [hr]
            unfold reduceIncomplete
            rw [appendFiles_countP haf]
          · intro t ht
            rcases mem_of_mem_set ht with rfl | ht'
            · exact hzm mt (mem_of_getElem?' hmt)
            · exact hzm t ht'
          · exact appendFiles_startAt haf hzr
  · -- Reduce report
    split at h
    · exact absurd h (by simp)
    · next rt hrt =>
      split at h
      · simp only [Option.some.injEq] at h; rw [← h]; exact ⟨hm, hr, hzm, hzr⟩
      · next hd =>
        simp only [Option.some.injEq] at h
        have hbal := countP_set_balance (fun t : ReduceTasks => !t.isDone) c.reduceTasks
          args.WorkerId { rt with isDone := true } rt hrt
        have hprt : (fun t : ReduceTasks => !t.isDone) rt = true := by
          simp only [Bool.not_eq_true']
          exact Bool.not_eq_true rt.isDone ▸ hd
        have hpnew : (fun t : ReduceTasks => !t.isDone) { rt with isDone := true } = false := by
          simp
        rw [hprt, hpnew] at hbal
        simp at hbal
        refine h ▸ ⟨?_, ?_, ?_, ?_⟩
        · exact hm
        · show c.reduceLeft - 1 =
            ((c.reduceTasks.set args.WorkerId { rt with isDone := true }).countP
              (fun t => !t.isDone) : Int)
          rw [hr]
          unfold reduceIncomplete
          omega
        · exact hzm
        · intro t ht
          rcases mem_of_mem_set ht with rfl | ht'
          · exact hzr rt (mem_of_getElem?' hrt)
          · exact hzr t ht'
  · -- any other report kind is a no-op
    simp only [Option.some.injEq] at h
    rw [← h]; exact ⟨hm, hr, hzm, hzr⟩

/-- Every record produced by `initMapTasks` is incomplete with a zero
timestamp. -/
theorem initMapTasks_mem {k : Nat} {fs : List String} :
    ∀ t ∈ initMapTasks k fs, t.startAt = 0 ∧ t.isDone = false := by
  induction fs generalizing k with
  | nil => intro t ht; simp [initMapTasks] at ht
  | cons f rest ih =>
    intro t ht
    rcases List.mem_cons.mp ht with rfl | ht'
    · exact ⟨rfl, rfl⟩
    · exact ih t ht'

/-- `initMapTasks` produces one record per input file. -/
theorem initMapTasks_length {k : Nat} {fs : List String} :
    (initMapTasks k fs).length = fs.length := by
  induction fs generalizing k with
  | nil => rfl
  | cons f rest ih => simp [initMapTasks, ih]

/-- Index-wise description of `initMapTasks`. -/
theorem initMapTasks_getElem? {k : Nat} {fs : List String} {i : Nat} :
    (initMapTasks k fs)[i]? =
      fs[i]?.map fun f => { id := k + i, file := f, startAt := 0, isDone := false } := by
  induction fs generalizing k i with
  | nil => simp [initMapTasks]
  | cons f rest ih =>
    cases i with
    | zero => simp [initMapTasks]
    | succ j =>
      simp only [initMapTasks, List.getElem?_cons_succ, ih]
      have : k + 1 + j = k + (j + 1) := by omega
      rw [this]

/-- Every record produced by `initReduceTasks` is incomplete, empty and
has a zero timestamp. -/
theorem initReduceTasks_mem {n : Nat} :
    ∀ t ∈ initReduceTasks n, t.startAt = 0 ∧ t.isDone = false ∧ t.files = [] := by
  intro t ht
  rcases List.mem_map.mp ht with ⟨idx, _, rfl⟩
  exact ⟨rfl, rfl, rfl⟩

/-- `initReduceTasks` produces exactly `nReduce` records. -/
theorem initReduceTasks_length {n : Nat} : (initReduceTasks n).length = n := by
  simp [initReduceTasks]

/-- Index-wise description of `initReduceTasks`. -/
theorem initReduceTasks_getElem? {n i : Nat} (h : i < n) :
    (initReduceTasks n)[i]? =
      some { id := i, files := [], startAt := 0, isDone := false } := by
  unfold initReduceTasks
  rw [List.getElem?_map, List.getElem?_range h]
  rfl

/-- The freshly constructed coordinator satisfies the invariant. -/
theorem mk_inv {files : List String} {nReduce : Nat} {c : Coordinator}
    (h : MakeCoordinator files nReduce = some c) : CoordInv c := by
  unfold MakeCoordinator at h
  split at h
  · exact absurd h (by simp)
  · simp only [Option.some.injEq] at h
    subst h
    refine ⟨?_, ?_, ?_, ?_⟩
    · show (files.length : Int) = (mapIncomplete _ : Int)
      unfold mapIncomplete
      simp only
      rw [List.countP_eq_length.mpr, initMapTasks_length]
      intro t ht
      simp [(initMapTasks_mem t ht).2]
    · show (nReduce : Int) = (reduceIncomplete _ : Int)
      unfold reduceIncomplete
      simp only
      rw [List.countP_eq_length.mpr, initReduceTasks_length]
      intro t ht
      simp [(initReduceTasks_mem t ht).2.1]
    · intro t ht
      exact (initMapTasks_mem t ht).1
    · intro t ht
      exact (initReduceTasks_mem t ht).1

/-- The invariant is preserved along any reachable execution. -/
theorem reachable_inv {c0 c : Coordinator} (h : Reachable c0 c) (h0 : CoordInv c0) :
    CoordInv c := by
  induction h with
  | refl => exact h0
  | step args r0 r1 now _ hc ih => exact ingest_inv (getTask_state hc) ih

/-- Every state of a run started by `MakeCoordinator` satisfies the
invariant. -/
theorem reachableFrom_inv {files : List String} {nReduce : Nat} {c : Coordinator}
    (h : ReachableFrom files nReduce c) : CoordInv c := by
  obtain ⟨c0, hmk, hre⟩ := h
  exact reachable_inv hre (mk_inv hmk)

/-- Reachability is transitive. -/
theorem reachable_trans {a b c : Coordinator} (h1 : Reachable a b) (h2 : Reachable b c) :
    Reachable a c := by
  induction h2 with
  | refl => exact h1
  | step args r0 r1 now _ hc ih => exact Reachable.step args r0 r1 now ih hc

/-- If some record is incomplete and stale, the Map scan finds a record. -/
theorem findStale_isSome_of {l : List MapTasks} {tl : Int} {t : MapTasks}
    (ht : t ∈ l) (hd : t.isDone = false) (hs : t.startAt < tl) :
    ∃ u, findStale tl l = some u := by
  induction l with
  | nil => simp at ht
  | cons hd' tl' ih =>
    unfold findStale
    split
    · exact ⟨hd', rfl⟩
    · next hcond =>
      rcases List.mem_cons.mp ht with rfl | ht'
      · exact absurd (by simp [hd, hs]) hcond
      · exact ih ht'

/-- If some record is incomplete and stale, the Reduce scan finds a
record. -/
theorem findStaleReduce_isSome_of {l : List ReduceTasks} {tl : Int} {t : ReduceTasks}
    (ht : t ∈ l) (hd : t.isDone = false) (hs : t.startAt < tl) :
    ∃ u, findStaleReduce tl l = some u := by
  induction l with
  | nil => simp at ht
  | cons hd' tl' ih =>
    unfold findStaleReduce
    split
    · exact ⟨hd', rfl⟩
    · next hcond =>
      rcases List.mem_cons.mp ht with rfl | ht'
      · exact absurd (by simp [hd, hs]) hcond
      · exact ih ht'

/-- While the post-ingestion state still holds an incomplete Map record,
a successful call hits the Map branch and hands back the caller's reply
value unchanged (`reply = &newTask` only rebinds the local pointer). -/
theorem getTask_reply_of_map_incomplete {c c' : Coordinator} {args : TaskArgs}
    {r0 r' : TaskReply} {now : Int}
    (hc : GetTask c args r0 now = some (c', r'))
    (hinv' : CoordInv c')
    (hpos : 0 < mapIncomplete c')
    (hnow : (10 : Int) < now) :
    r' = r0 := by
  have hst := getTask_state hc
  unfold GetTask at hc
  rw [hst] at hc
  simp only at hc
  obtain ⟨hm, _, hzm, _⟩ := hinv'
  have hml : 0 < c'.mapLeft := by rw [hm]; exact_mod_cast hpos
  rw [if_pos hml] at hc
  obtain ⟨t, htm, htp⟩ := List.countP_pos_iff.mp hpos
  have htd : t.isDone = false := by
    revert htp; simp
  have hts : t.startAt < now - 10 := by
    rw [hzm t htm]; omega
  obtain ⟨u, hu⟩ := findStale_isSome_of htm htd hts
  rw [hu] at hc
  simp only [Option.some.injEq, Prod.mk.injEq] at hc
  exact hc.2.symm

/-- Ingestion on a state whose records are all complete is a no-op. -/
theorem ingest_all_done {c c' : Coordinator} {args : TaskArgs}
    (h : ingest c args = some c')
    (hmd : ∀ t ∈ c.mapTasks, t.isDone = true)
    (hrd : ∀ t ∈ c.reduceTasks, t.isDone = true) : c' = c := by
  unfold ingest at h
  split at h
  · split at h
    · exact absurd h (by simp)
    · next mt hmt =>
      rw [if_pos (hmd mt (mem_of_getElem?' hmt))] at h
      simp only [Option.some.injEq] at h
      exact h.symm
  · split at h
    · exact absurd h (by simp)
    · next rt hrt =>
      rw [if_pos (hrd rt (mem_of_getElem?' hrt))] at h
      simp only [Option.some.injEq] at h
      exact h.symm
  · simp only [Option.some.injEq] at h
    exact h.symm

/-- With no dispatchable Reduce work, the tail of `GetTask` degenerates
to the `Exit` assignment. -/
theorem reduceAndExit_of_nonpos {c : Coordinator} {reply : TaskReply} {timeLeft : Int}
    (h : ¬0 < c.reduceLeft) :
    reduceAndExit c reply timeLeft = (c, { reply with WorkerStatus := WorkerStatus.Exit }) := by
  unfold reduceAndExit
  rw [if_neg h]

/-- A call on a completed, invariant-satisfying job leaves the state
unchanged and writes `Exit` into the caller's reply. -/
theorem getTask_done_core {c c' : Coordinator} {args : TaskArgs} {r0 r' : TaskReply} {now : Int}
    (hc : GetTask c args r0 now = some (c', r'))
    (hinv : CoordInv c)
    (hdone : Done c = true) :
    c' = c ∧ r'.WorkerStatus = WorkerStatus.Exit := by
  obtain ⟨hm, hr, _, _⟩ := hinv
  have hml : c.mapLeft = 0 := by
    unfold Done at hdone
    have := (Bool.and_eq_true _ _).mp hdone
    exact_mod_cast beq_iff_eq.mp this.1
  have hrl : c.reduceLeft = 0 := by
    unfold Done at hdone
    have := (Bool.and_eq_true _ _).mp hdone
    exact_mod_cast beq_iff_eq.mp this.2
  have hmd : ∀ t ∈ c.mapTasks, t.isDone = true := by
    have : mapIncomplete c = 0 := by omega
    intro t ht
    have := List.countP_eq_zero.mp this t ht
    revert this; simp
  have hrd : ∀ t ∈ c.reduceTasks, t.isDone = true := by
    have : reduceIncomplete c = 0 := by omega
    intro t ht
    have := List.countP_eq_zero.mp this t ht
    revert this; simp
  have hceq : c' = c := ingest_all_done (getTask_state hc) hmd hrd
  refine ⟨hceq, ?_⟩
  unfold GetTask at hc
  rw [getTask_state hc] at hc
  simp only at hc
  rw [hceq] at hc
  rw [if_neg (by omega : ¬(0:Int) < c.mapLeft)] at hc
  rw [reduceAndExit_of_nonpos (by omega)] at hc
  simp only [Option.some.injEq, Prod.mk.injEq] at hc
  rw [← hc.2]

/-- Ingestion never increases either remaining counter. -/
theorem ingest_counters_le {c c' : Coordinator} {args : TaskArgs}
    (h : ingest c args = some c') :
    c'.mapLeft ≤ c.mapLeft ∧ c'.reduceLeft ≤ c.reduceLeft := by
  unfold ingest at h
  split at h
  · split at h
    · exact absurd h (by simp)
    · split at h
      · simp only [Option.some.injEq] at h; rw [← h]; exact ⟨le_refl _, le_refl _⟩
      · split at h
        · exact absurd h (by simp)
        · simp only [Option.some.injEq] at h
          rw [← h]
          constructor
          · show c.mapLeft - 1 ≤ c.mapLeft; omega
          · exact le_refl _
  · split at h
    · exact absurd h (by simp)
    · split at h
      · simp only [Option.some.injEq] at h; rw [← h]; exact ⟨le_refl _, le_refl _⟩
      · simp only [Option.some.injEq] at h
        rw [← h]
        constructor
        · exact le_refl _
        · show c.reduceLeft - 1 ≤ c.reduceLeft; omega
  · simp only [Option.some.injEq] at h; rw [← h]; exact ⟨le_refl _, le_refl _⟩

/-- Ingestion preserves the number of Reduce records. -/
theorem ingest_reduceLen {c c' : Coordinator} {args : TaskArgs}
    (h : ingest c args = some c') :
    c'.reduceTasks.length = c.reduceTasks.length := by
  unfold ingest at h
  split at h
  · split at h
    · exact absurd h (by simp)
    · split at h
      · simp only [Option.some.injEq] at h; rw [← h]
      · split at h
        · exact absurd h (by simp)
        · next rts haf =>
          simp only [Option.some.injEq] at h
          rw [← h]
          exact appendFiles_length haf
  · split at h
    · exact absurd h (by simp)
    · split at h
      · simp only [Option.some.injEq] at h; rw [← h]
      · simp only [Option.some.injEq] at h
        rw [← h]
        exact List.length_set _ _ _
  · simp only [Option.some.injEq] at h; rw [← h]

/-- The number of Reduce records never changes along a run. -/
theorem reachable_reduceLen {c0 c : Coordinator} (h : Reachable c0 c) :
    c.reduceTasks.length = c0.reduceTasks.length := by
  induction h with
  | refl => rfl
  | step args r0 r1 now _ hc ih =>
    rw [ingest_reduceLen (getTask_state hc)]
    exact ih

/-- When no Reduce record exists in the post-state, a successful call
never writes a `Reduce` assignment into the caller's reply. -/
theorem getTask_no_reduce {c c' : Coordinator} {args : TaskArgs} {r0 r' : TaskReply} {now : Int}
    (hc : GetTask c args r0 now = some (c', r'))
    (hrl : ¬0 < c'.reduceLeft)
    (hr0 : r0.WorkerStatus ≠ WorkerStatus.Reduce) :
    r'.WorkerStatus ≠ WorkerStatus.Reduce := by
  have hst := getTask_state hc
  unfold GetTask at hc
  rw [hst] at hc
  simp only at hc
  split at hc
  · split at hc
    · simp only [Option.some.injEq, Prod.mk.injEq] at hc
      rw [← hc.2]
      exact hr0
    · rw [reduceAndExit_of_nonpos hrl] at hc
      simp only [Option.some.injEq, Prod.mk.injEq] at hc
      rw [← hc.2]
      simp
  · rw [reduceAndExit_of_nonpos hrl] at hc
    simp only [Option.some.injEq, Prod.mk.injEq] at hc
    rw [← hc.2]
    simp

/-- `appendFiles` cannot run out of buckets when the report carries at
most one entry per remaining bucket. -/
theorem appendFiles_isSome {rts : List ReduceTasks} {cts : List String} {i : Nat}
    (h : cts.length + i ≤ rts.length) :
    (appendFiles rts cts i).isSome = true := by
  induction cts generalizing rts i with
  | nil => rfl
  | cons ct rest ih =>
    unfold appendFiles
    split
    · have hi : i < rts.length := by
        simp only [List.length_cons] at h; omega
      rw [List.getElem?_eq_getElem hi]
      exact ih (by rw [List.length_set]; simp only [List.length_cons] at h; omega)
    · exact ih (by simp only [List.length_cons] at h; omega)

/-- Ingestion of an in-range report never panics. -/
theorem ingest_isSome {c : Coordinator} {args : TaskArgs} (hv : ValidArgs c args) :
    (ingest c args).isSome = true := by
  unfold ingest
  split
  · next hst =>
    have hv' : args.WorkerId < c.mapTasks.length ∧
        args.CompletedTasks.length ≤ c.reduceTasks.length := by
      unfold ValidArgs at hv; rw [hst] at hv; exact hv
    split
    · next hmt =>
      rw [List.getElem?_eq_none_iff] at hmt
      omega
    · split
      · rfl
      · split
        · next haf =>
          have := @appendFiles_isSome c.reduceTasks args.CompletedTasks 0 (by omega)
          rw [haf] at this
          exact absurd this (by simp)
        · rfl
  · next hst =>
    have hv' : args.WorkerId < c.reduceTasks.length := by
      unfold ValidArgs at hv; rw [hst] at hv; exact hv
    split
    · next hrt =>
      rw [List.getElem?_eq_none_iff] at hrt
      omega
    · split
      · rfl
      · rfl
  · rfl

/-- A `GetTask` call with an in-range report always returns a reply. -/
theorem getTask_isSome {c : Coordinator} {args : TaskArgs} {r0 : TaskReply} {now : Int}
    (hv : ValidArgs c args) : (GetTask c args r0 now).isSome = true := by
  unfold GetTask
  split
  · next hi =>
    have := ingest_isSome hv
    rw [hi] at this
    exact absurd this (by simp)
  · split
    · dsimp only
      split <;> rfl
    · rfl

/-- The coordinator built from input files `a` and `b` with one reduce
bucket. -/
def coordAB1 : Coordinator :=
  { mapTasks := [{ id := 0, file := "a", startAt := 0, isDone := false },
                 { id := 1, file := "b", startAt := 0, isDone := false }],
    reduceTasks := [{ id := 0, files := [], startAt := 0, isDone := false }],
    mapLeft := 2, reduceLeft := 1 }

/-- The coordinator built from the single input file `a` with one reduce
bucket. -/
def coordA1 : Coordinator :=
  { mapTasks := [{ id := 0, file := "a", startAt := 0, isDone := false }],
    reduceTasks := [{ id := 0, files := [], startAt := 0, isDone := false }],
    mapLeft := 1, reduceLeft := 1 }

/-- A coordinator state whose single incomplete Map record was dispatched
5 seconds ago (at time 95), with no Reduce work: per the spec this state
must answer `WAIT` at time 100. -/
def coordWaitState : Coordinator :=
  { mapTasks := [{ id := 0, file := "a", startAt := 95, isDone := false }],
    reduceTasks := [],
    mapLeft := 1, reduceLeft := 0 }

/-- The state after the Map task of `coordA1` has been reported complete
with one intermediate reference for bucket 0. -/
def coordA1MapDone : Coordinator :=
  { mapTasks := [{ id := 0, file := "a", startAt := 0, isDone := true }],
    reduceTasks := [{ id := 0, files := ["x"], startAt := 0, isDone := false }],
    mapLeft := 0, reduceLeft := 1 }

/-- The state after the Reduce task of `coordA1MapDone` has also been
reported complete: the job is done. -/
def coordA1AllDone : Coordinator :=
  { mapTasks := [{ id := 0, file := "a", startAt := 0, isDone := true }],
    reduceTasks := [{ id := 0, files := ["x"], startAt := 0, isDone := true }],
    mapLeft := 0, reduceLeft := 0 }

/-- Report that Map task 0 finished, producing reference `x` for bucket 0. -/
def mapDoneArgs : TaskArgs :=
  { WorkerStatus := WorkerStatus.Map, WorkerId := 0, CompletedTasks := ["x"] }

/-- Report that Reduce task 0 finished. -/
def reduceDoneArgs : TaskArgs :=
  { WorkerStatus := WorkerStatus.Reduce, WorkerId := 0, CompletedTasks := [] }

/-- The reply produced when the Reduce task holding reference `x` is
dispatched over the zero reply. -/
def reduceReplyX : TaskReply :=
  { WorkerId := 0, WorkerStatus := WorkerStatus.Reduce,
    ImpendingTasks := ["x"], NReduce := 0 }

/-- A coordinator state in the Map phase whose only incomplete Map record
was dispatched 5 seconds ago, while an incomplete Reduce record exists:
per the spec the scheduler must answer `WAIT` at time 100. -/
def coordWaitState2 : Coordinator :=
  { mapTasks := [{ id := 0, file := "a", startAt := 95, isDone := false }],
    reduceTasks := [{ id := 0, files := [], startAt := 0, isDone := false }],
    mapLeft := 1, reduceLeft := 1 }

/-- A coordinator state in the Reduce phase whose only incomplete Reduce
record was dispatched 5 seconds ago: per the spec the scheduler must
answer `WAIT` at time 100. -/
def coordWaitState3 : Coordinator :=
  { mapTasks := [{ id := 0, file := "a", startAt := 0, isDone := true }],
    reduceTasks := [{ id := 0, files := ["x"], startAt := 95, isDone := false }],
    mapLeft := 0, reduceLeft := 1 }

/-! ### Claim theorems -/

/-- C8: `MakeCoordinator` fails fatally exactly when the input file list
is empty; for every non-empty list it creates one `MapTasks` record per
input file (identity = positional index, holding that file), `nReduce`
`ReduceTasks` records with identities `0..nReduce-1`, all marked
incomplete with unset (zero) assignment timestamps, and sets
`mapLeft = files.length` and `reduceLeft = nReduce`. -/
theorem makeCoordinator_construction (files : List String) (nReduce : Nat) :
    (MakeCoordinator files nReduce = none ↔ files = []) ∧
    ∀ c, MakeCoordinator files nReduce = some c →
      c.mapTasks.length = files.length ∧
      c.reduceTasks.length = nReduce ∧
      c.mapLeft = (files.length : Int) ∧
      c.reduceLeft = (nReduce : Int) ∧
      (∀ i f, files[i]? = some f →
        c.mapTasks[i]? =
          some ({ id := i, file := f, startAt := 0, isDone := false } : MapTasks)) ∧
      (∀ i, i < nReduce →
        c.reduceTasks[i]? =
          some ({ id := i, files := [], startAt := 0, isDone := false } : ReduceTasks)) := by
  constructor
  · unfold MakeCoordinator
    split
    · next hlen =>
      simp [List.length_eq_zero.mp hlen]
    · next hlen =>
      constructor
      · intro h
        exact absurd h (by simp)
      · intro h
        exact absurd (by rw [h]; rfl : files.length = 0) hlen
  · intro c h
    unfold MakeCoordinator at h
    split at h
    · exact absurd h (by simp)
    · simp only [Option.some.injEq] at h
      subst h
      refine ⟨initMapTasks_length, initReduceTasks_length, rfl, rfl, ?_, ?_⟩
      · intro i f hif
        have hx : (initMapTasks 0 files)[i]? =
            some ({ id := i, file := f, startAt := 0, isDone := false } : MapTasks) := by
          rw [initMapTasks_getElem?, hif]
          simp
        exact hx
      · intro i hi
        exact initReduceTasks_getElem? hi

/-- Witness for C8 at the concrete input `["a"]`, `nReduce = 1`. -/
theorem makeCoordinator_construction_witness :
    coordA1.mapTasks.length = (["a"] : List String).length ∧
    coordA1.reduceTasks.length = 1 :=
  ⟨((makeCoordinator_construction ["a"] 1).2 coordA1 (by decide)).1,
   ((makeCoordinator_construction ["a"] 1).2 coordA1 (by decide)).2.1⟩

/-- C5: Reporting completion of a MAP or REDUCE task whose record is
already marked complete leaves the entire coordinator state unchanged —
in particular no remaining counter is decremented a second time and no
intermediate reference is appended to any reduce bucket a second time. -/
theorem duplicate_report_ignored (c c' : Coordinator) (args : TaskArgs)
    (r0 r' : TaskReply) (now : Int)
    (hdup : (args.WorkerStatus = WorkerStatus.Map ∧
              ∃ mt, c.mapTasks[args.WorkerId]? = some mt ∧ mt.isDone = true) ∨
            (args.WorkerStatus = WorkerStatus.Reduce ∧
              ∃ rt, c.reduceTasks[args.WorkerId]? = some rt ∧ rt.isDone = true))
    (hc : GetTask c args r0 now = some (c', r')) :
    c' = c := by
  have hst := getTask_state hc
  rcases hdup with ⟨hk, mt, hmt, hd⟩ | ⟨hk, rt, hrt, hd⟩
  · simp only [ingest, hk, hmt, hd, if_true, Option.some.injEq] at hst
    exact hst.symm
  · simp only [ingest, hk, hrt, hd, if_true, Option.some.injEq] at hst
    exact hst.symm

/-- Witness for C5: a second completion report for the already-complete
Map task of `coordA1MapDone` leaves the state untouched. -/
theorem duplicate_report_ignored_witness : coordA1MapDone = coordA1MapDone :=
  duplicate_report_ignored coordA1MapDone coordA1MapDone mapDoneArgs replyZero
    reduceReplyX 100
    (Or.inl ⟨rfl, { id := 0, file := "a", startAt := 0, isDone := true }, by decide, rfl⟩)
    (by decide)

/-- C9 counterexample: `GetTask` is not lenient for an out-of-range task
identity — reporting Map identity 5 against a one-task job indexes
`mapTasks` out of range, a Go runtime panic (`none`), not a reply. -/
theorem out_of_range_report_faults :
    GetTask coordA1
      ({ WorkerStatus := WorkerStatus.Map, WorkerId := 5, CompletedTasks := [] })
      replyZero 100 = none := by
  decide

/-- C9 (amended): `GetTask` completes and returns a reply for every
report whose task identity is in range for its reported kind (`NONE`
reports always succeed; a `MAP` report additionally needs at most one
intermediate entry per reduce bucket); an out-of-range identity faults
instead of being absorbed leniently. -/
theorem in_range_report_succeeds (c : Coordinator) (args : TaskArgs) (r0 : TaskReply)
    (now : Int) (hv : ValidArgs c args) :
    ∃ c' r', GetTask c args r0 now = some (c', r') := by
  have hs := @getTask_isSome c args r0 now hv
  cases hg : GetTask c args r0 now with
  | none => rw [hg] at hs; exact absurd hs (by simp)
  | some p => exact ⟨p.1, p.2, rfl⟩

/-- Witness for C9 (amended): the in-range first-contact call on `coordA1`
returns a reply. -/
theorem in_range_report_succeeds_witness :
    ∃ c' r', GetTask coordA1 noneArgs replyZero 100 = some (c', r') :=
  in_range_report_succeeds coordA1 noneArgs replyZero 100 trivial

/-- C2 (code bug): dispatching Map task 0 of `coordA1` at time 100 does
not record the assignment timestamp in the authoritative record — the
scan writes `now` into a copy — so the state is returned unchanged with
`startAt` still 0, and at time 101 (well before 100 + 10s) the staleness
scan selects the very same task for re-dispatch. -/
theorem dispatch_timestamp_not_recorded :
    GetTask coordA1 noneArgs replyZero 100 = some (coordA1, replyZero) ∧
    coordA1.mapTasks[0]? =
      some ({ id := 0, file := "a", startAt := 0, isDone := false } : MapTasks) ∧
    findStale (101 - 10) coordA1.mapTasks =
      some { id := 0, file := "a", startAt := 0, isDone := false } := by
  decide

/-- C3 (code bug): on the Map-dispatch path the code builds `newTask` and
executes `reply = &newTask`, rebinding the local pointer — the caller's
reply comes back exactly as it went in: no `MAP` kind, no input file, no
`nReduce`, although `coordA1` has an eligible incomplete Map task. -/
theorem map_assignment_not_delivered :
    GetTask coordA1 noneArgs replyZero 100 = some (coordA1, replyZero) ∧
    replyZero.WorkerStatus ≠ WorkerStatus.Map ∧
    replyZero.ImpendingTasks = [] ∧
    replyZero.NReduce = 0 := by
  decide

/-- C4 (code bug): because there is no early return after
`reply.WorkerStatus = Sleep`, `WAIT` never reaches the caller.  With the
only incomplete Map record dispatched 5s ago: if no Reduce work exists
the call answers `EXIT` even though `mapLeft = 1` (refuting both the WAIT
clause and the EXIT-iff-both-zero clause); if an eligible Reduce record
exists the call hands out a `REDUCE` assignment during the Map phase; and
in the Reduce phase a fresh in-flight Reduce record likewise yields
`EXIT` instead of `WAIT` while `reduceLeft = 1`. -/
theorem wait_never_returned :
    (GetTask coordWaitState noneArgs replyZero 100 =
        some (coordWaitState, { replyZero with WorkerStatus := WorkerStatus.Exit }) ∧
      coordWaitState.mapLeft = 1) ∧
    (GetTask coordWaitState2 noneArgs replyZero 100 =
        some (coordWaitState2,
          { WorkerId := 0, WorkerStatus := WorkerStatus.Reduce,
            ImpendingTasks := [], NReduce := 0 }) ∧
      coordWaitState2.mapLeft = 1) ∧
    (GetTask coordWaitState3 noneArgs replyZero 100 =
        some (coordWaitState3, { replyZero with WorkerStatus := WorkerStatus.Exit }) ∧
      coordWaitState3.reduceLeft = 1) := by
  decide

/-- C1: Phase ordering.  Report ingestion and the assignment decision
happen inside one call, so "while any MapTaskRecord is incomplete" is
read at the moment the assignment is decided, i.e. of the post-ingestion
record table (the state component of the result, since the scans mutate
nothing).  In any reachable state, when an incomplete Map record remains
at decision time, the call never hands the caller a `REDUCE`
assignment. -/
theorem no_reduce_while_map_incomplete (files : List String) (nReduce : Nat)
    (c c' : Coordinator) (args : TaskArgs) (r0 r' : TaskReply) (now : Int)
    (hreach : ReachableFrom files nReduce c)
    (hnow : (10 : Int) < now)
    (hr0 : r0.WorkerStatus ≠ WorkerStatus.Reduce)
    (hc : GetTask c args r0 now = some (c', r'))
    (hinc : ∃ t ∈ c'.mapTasks, t.isDone = false) :
    r'.WorkerStatus ≠ WorkerStatus.Reduce := by
  have hinv := reachableFrom_inv hreach
  have hinv' := ingest_inv (getTask_state hc) hinv
  have hpos : 0 < mapIncomplete c' := by
    apply List.countP_pos_iff.mpr
    obtain ⟨t, ht, hd⟩ := hinc
    exact ⟨t, ht, by simp [hd]⟩
  rw [getTask_reply_of_map_incomplete hc hinv' hpos hnow]
  exact hr0

/-- Witness for C1: a first-contact call on the fresh two-task job. -/
theorem no_reduce_while_map_incomplete_witness :
    replyZero.WorkerStatus ≠ WorkerStatus.Reduce :=
  no_reduce_while_map_incomplete ["a", "b"] 1 coordAB1 coordAB1 noneArgs replyZero
    replyZero 100 ⟨coordAB1, by decide, Reachable.refl coordAB1⟩ (by decide) (by decide)
    (by decide)
    ⟨{ id := 0, file := "a", startAt := 0, isDone := false }, by decide, rfl⟩

/-- C6: in every reachable state the remaining-Map counter equals the
number of Map records whose completion flag is false, likewise for
Reduce, and neither counter ever increases across a further successful
call. -/
theorem counters_track_incomplete (files : List String) (nReduce : Nat) (c : Coordinator)
    (hreach : ReachableFrom files nReduce c) :
    c.mapLeft = (mapIncomplete c : Int) ∧
    c.reduceLeft = (reduceIncomplete c : Int) ∧
    ∀ args r0 now c' r', GetTask c args r0 now = some (c', r') →
      c'.mapLeft ≤ c.mapLeft ∧ c'.reduceLeft ≤ c.reduceLeft := by
  have hinv := reachableFrom_inv hreach
  exact ⟨hinv.1, hinv.2.1,
    fun args r0 now c' r' hc => ingest_counters_le (getTask_state hc)⟩

/-- Witness for C6 on the fresh one-task job. -/
theorem counters_track_incomplete_witness :
    coordA1.mapLeft = (mapIncomplete coordA1 : Int) :=
  (counters_track_incomplete ["a"] 1 coordA1
    ⟨coordA1, by decide, Reachable.refl coordA1⟩).1

/-- C7: terminal-state monotonicity.  Once a reachable state satisfies
`Done` (both remaining counters zero), every state reachable from it
still satisfies `Done`, and every further successful `GetTask` call
writes `Exit` into the caller's reply. -/
theorem job_complete_terminal (files : List String) (nReduce : Nat) (c : Coordinator)
    (hreach : ReachableFrom files nReduce c)
    (hdone : Done c = true) :
    ∀ c2, Reachable c c2 → Done c2 = true ∧
      ∀ args r0 now c3 r3, GetTask c2 args r0 now = some (c3, r3) →
        r3.WorkerStatus = WorkerStatus.Exit := by
  have hinv := reachableFrom_inv hreach
  intro c2 hr2
  have heq : c2 = c := by
    induction hr2 with
    | refl => rfl
    | step args r0 r1 now h hc ih =>
      rw [ih] at hc
      exact (getTask_done_core hc hinv hdone).1
  subst heq
  refine ⟨hdone, ?_⟩
  intro args r0 now c3 r3 hc3
  exact (getTask_done_core hc3 hinv hdone).2

/-- Witness for C7: the one-task job after both completion reports. -/
theorem job_complete_terminal_witness :
    Done coordA1AllDone = true ∧
    ({ replyZero with WorkerStatus := WorkerStatus.Exit } : TaskReply).WorkerStatus =
      WorkerStatus.Exit := by
  have h1 : Reachable coordA1 coordA1MapDone :=
    Reachable.step mapDoneArgs replyZero reduceReplyX 100
      (Reachable.refl coordA1) (by decide)
  have h2 : Reachable coordA1 coordA1AllDone :=
    Reachable.step reduceDoneArgs replyZero
      ({ replyZero with WorkerStatus := WorkerStatus.Exit }) 100 h1 (by decide)
  have hreach : ReachableFrom ["a"] 1 coordA1AllDone := ⟨coordA1, by decide, h2⟩
  have h := job_complete_terminal ["a"] 1 coordA1AllDone hreach (by decide)
    coordA1AllDone (Reachable.refl coordA1AllDone)
  exact ⟨h.1, h.2 noneArgs replyZero 200 coordA1AllDone
    ({ replyZero with WorkerStatus := WorkerStatus.Exit }) (by decide)⟩

/-- C10: zero-reduce edge case.  `MakeCoordinator` only validates that the
file list is non-empty, so with `nReduce = 0` construction succeeds with
no Reduce records and `reduceLeft = 0`; in every state reachable from it,
once all Map records are complete `Done` holds and every further call
answers `Exit`, and no call ever delivers a `Reduce` assignment. -/
theorem zero_reduce_job (files : List String) (hne : files ≠ []) :
    ∃ c0, MakeCoordinator files 0 = some c0 ∧ c0.reduceTasks = [] ∧ c0.reduceLeft = 0 ∧
      ∀ c, Reachable c0 c →
        ((∀ t ∈ c.mapTasks, t.isDone = true) → Done c = true ∧
          ∀ args r0 now c' r', GetTask c args r0 now = some (c', r') →
            r'.WorkerStatus = WorkerStatus.Exit) ∧
        ∀ args r0 now c' r', GetTask c args r0 now = some (c', r') →
          r0.WorkerStatus ≠ WorkerStatus.Reduce →
          r'.WorkerStatus ≠ WorkerStatus.Reduce := by
  have hlen : ¬files.length = 0 := fun h => hne (List.length_eq_zero.mp h)
  have hmk : MakeCoordinator files 0 =
      some { mapTasks := initMapTasks 0 files, reduceTasks := initReduceTasks 0,
             mapLeft := (files.length : Int), reduceLeft := ((0 : Nat) : Int) } := by
    unfold MakeCoordinator
    rw [if_neg hlen]
  refine ⟨_, hmk, rfl, rfl, ?_⟩
  intro c hre
  have hinv : CoordInv c := reachable_inv hre (mk_inv hmk)
  have hrlen : c.reduceTasks.length = 0 := by
    rw [reachable_reduceLen hre]
    rfl
  have hrnil : c.reduceTasks = [] := List.length_eq_zero.mp hrlen
  have hrleft : c.reduceLeft = 0 := by
    rw [hinv.2.1]
    unfold reduceIncomplete
    rw [hrnil]
    rfl
  constructor
  · intro hall
    have hmc : mapIncomplete c = 0 := by
      unfold mapIncomplete
      rw [List.countP_eq_zero]
      intro t ht
      simp [hall t ht]
    have hml : c.mapLeft = 0 := by rw [hinv.1, hmc]; rfl
    have hdone : Done c = true := by
      unfold Done
      rw [hml, hrleft]
      decide
    exact ⟨hdone, fun args r0 now c' r' hc => (getTask_done_core hc hinv hdone).2⟩
  · intro args r0 now c' r' hc hr0
    have hinv' := ingest_inv (getTask_state hc) hinv
    have hlen' : c'.reduceTasks.length = 0 := by
      rw [ingest_reduceLen (getTask_state hc), hrlen]
    have hrleft' : c'.reduceLeft = 0 := by
      rw [hinv'.2.1]
      unfold reduceIncomplete
      rw [List.length_eq_zero.mp hlen']
      rfl
    exact getTask_no_reduce hc (by omega) hr0

/-- Witness for C10 at the concrete input `["a"]`. -/
theorem zero_reduce_job_witness :
    ∃ c0, MakeCoordinator ["a"] 0 = some c0 ∧ c0.reduceTasks = [] := by
  obtain ⟨c0, hmk, hnil, _⟩ := zero_reduce_job ["a"] (by decide)
  exact ⟨c0, hmk, hnil⟩
